import Mathlib

/-!
Verification of the byte-stream filter pipeline library (common/iobuf.c) and
the string-list helpers (common/strlist.c) against their specification.

The development is a shallow embedding: C strings become `List Char`, byte
buffers become `List Nat`, machine integers become `Nat`/`Int` (all the
quantities involved are `size_t`/`unsigned` counters that stay far below any
overflow boundary on the traced paths; where a C type boundary matters, such
as the `unsigned int` length argument of `iobuf_write`, it appears as an
explicit hypothesis).  Loops are written as structurally recursive functions
on an explicit fuel argument that is always instantiated with a value proved
(or chosen) large enough that the fuel never runs out on the modelled paths;
this keeps every definition executable by `decide`/`rfl`.
-/

namespace Strlist

/-- Modelled from the spec: `trim_spaces` (defined in common/stringhelp.c,
which is not part of src/) removes leading and trailing whitespace from a
string in place.  We use the standard C whitespace class. -/
def isSpaceCh (c : Char) : Bool :=
  c = ' ' || c = '\t' || c = '\n' || c = '\x0b' || c = '\x0c' || c = '\r'

/-- Modelled from the spec: `trim_spaces` drops leading and trailing
whitespace characters. -/
def trim_spaces (s : List Char) : List Char :=
  ((s.dropWhile isSpaceCh).reverse.dropWhile isSpaceCh).reverse

/-- One node of `strlist_t`: the payload string `d` and the `flags` word. -/
structure SNode where
  d : List Char
  flags : Nat
deriving DecidableEq, Repr

/-- The character class scanned over by `strpbrk (s, delim)`: true while the
character is not one of the delimiters. -/
def noDelim (delim : List Char) (c : Char) : Bool :=
  !(delim.contains c)

/-- The per-token processing of the `tokenize_to_strlist` loop body: an empty
raw token is skipped (`if (!n) continue`); otherwise the token is appended,
trimmed with `trim_spaces`, and removed again when the trimmed token is empty
(the `strlist_prev` dance, whose net effect is exactly to drop the new tail
node). -/
def tokenize_item (tok : List Char) : List (List Char) :=
  if tok = [] then []
  else if trim_spaces tok = [] then [] else [trim_spaces tok]

/-- The loop of `tokenize_to_strlist` (strlist.c:196-237).  Each round finds
the next delimiter via `strpbrk` (`takeWhile`/`dropWhile` on `noDelim`),
processes the raw token before it, and continues while a delimiter was found,
with `s` set just past it.  Fuel: each round past the first consumes the
delimiter character, so `s.length + 1` rounds always suffice. -/
def tokenize_go (delim : List Char) : Nat → List Char → List (List Char)
  | 0, _ => []
  | fuel + 1, s =>
    match s.dropWhile (noDelim delim) with
    | [] => tokenize_item (s.takeWhile (noDelim delim))
    | _ :: r =>
      tokenize_item (s.takeWhile (noDelim delim)) ++ tokenize_go delim fuel r

/-- `tokenize_to_strlist` (strlist.c:196-257) restricted to its produced
token list NEWLIST.  When no token survives, the C function returns NULL with
ERRNO set to ENOENT (the dedicated "no tokens" sentinel); we model that
outcome as `none`.  Otherwise the result is the list of trimmed tokens in
order (which the C code then appends to *LIST and returns). -/
def tokenize_to_strlist (s : List Char) (delim : List Char) :
    Option (List (List Char)) :=
  let l := tokenize_go delim (s.length + 1) s
  if l = [] then none else some l

/-- The join operation used by the specification's round-trip law: concatenate
the elements with a single delimiter character between consecutive elements. -/
def strlist_join : List (List Char) → Char → List Char
  | [], _ => []
  | [x], _ => x
  | x :: y :: ys, d => x ++ d :: strlist_join (y :: ys) d

/-- `strlist_copy` (strlist.c:262-278).  The C code keeps `last = &sl;` after
linking the first copied node (instead of `&sl->next`), so from the second
iteration on `*last = sl` merely stores the freshly allocated node into the
dead local variable `sl` itself and never links it into NEWLIST: the returned
list consists of the first node only (with its payload and flags copied); the
remaining copies leak.  An empty input yields the empty list. -/
def strlist_copy (l : List SNode) : List SNode :=
  match l with
  | [] => []
  | x :: _ => [{ d := x.d, flags := x.flags }]

theorem takeWhile_append_all {p : Char → Bool} (x : List Char) (a : Char)
    (t : List Char) (hx : ∀ c ∈ x, p c = true) (ha : p a = false) :
    (x ++ a :: t).takeWhile p = x := by
  induction x with
  | nil => simp [List.takeWhile, ha]
  | cons y ys ih =>
    have hy : p y = true := hx y (by simp)
    simp only [List.cons_append, List.takeWhile_cons, hy, if_true]
    simp only [List.cons.injEq, true_and]
    exact ih (fun c hc => hx c (by simp [hc]))

theorem dropWhile_append_all {p : Char → Bool} (x : List Char) (a : Char)
    (t : List Char) (hx : ∀ c ∈ x, p c = true) (ha : p a = false) :
    (x ++ a :: t).dropWhile p = a :: t := by
  induction x with
  | nil => simp [List.dropWhile, ha]
  | cons y ys ih =>
    have hy : p y = true := hx y (by simp)
    simp only [List.cons_append, List.dropWhile_cons, hy, if_true]
    exact ih (fun c hc => hx c (by simp [hc]))

theorem noDelim_single_true {d c : Char} (h : c ≠ d) :
    noDelim [d] c = true := by
  simp [noDelim, h]

theorem noDelim_single_false (d : Char) : noDelim [d] d = false := by
  simp [noDelim]

theorem tokenize_item_clean {x : List Char} (hx_ne : x ≠ [])
    (hx_trim : trim_spaces x = x) : tokenize_item x = [x] := by
  rw [tokenize_item, if_neg hx_ne, hx_trim, if_neg hx_ne]

theorem tokenize_go_of_clean (d : Char) :
    ∀ (l : List (List Char)) (fuel : Nat), l ≠ [] →
    (strlist_join l d).length < fuel →
    (∀ e ∈ l, e ≠ [] ∧ trim_spaces e = e ∧ d ∉ e) →
    tokenize_go [d] fuel (strlist_join l d) = l := by
  intro l
  induction l with
  | nil => intro fuel h; exact absurd rfl h
  | cons x xs ih =>
    intro fuel _ hfuel hcond
    obtain ⟨hx_ne, hx_trim, hx_nd⟩ := hcond x (by simp)
    match fuel, hfuel with
    | fuel + 1, hfuel =>
      have hall : ∀ c ∈ x, noDelim [d] c = true := by
        intro c hc
        exact noDelim_single_true (fun h => hx_nd (h ▸ hc))
      cases xs with
      | nil =>
        have hjoin : strlist_join [x] d = x := rfl
        rw [hjoin]
        have htake : x.takeWhile (noDelim [d]) = x :=
          List.takeWhile_eq_self_iff.mpr hall
        have hdrop : x.dropWhile (noDelim [d]) = [] :=
          List.dropWhile_eq_nil_iff.mpr (fun c hc => hall c hc)
        rw [tokenize_go, hdrop, htake, tokenize_item_clean hx_ne hx_trim]
      | cons y ys =>
        have hjoin : strlist_join (x :: y :: ys) d =
            x ++ d :: strlist_join (y :: ys) d := rfl
        rw [hjoin]
        have htake := takeWhile_append_all (p := noDelim [d])
          x d (strlist_join (y :: ys) d) hall (noDelim_single_false d)
        have hdrop := dropWhile_append_all (p := noDelim [d])
          x d (strlist_join (y :: ys) d) hall (noDelim_single_false d)
        have hlen : (strlist_join (y :: ys) d).length < fuel := by
          rw [hjoin] at hfuel
          simp only [List.length_append, List.length_cons] at hfuel
          omega
        have hrec := ih fuel (by simp) hlen
          (fun e he => hcond e (by simp [he]))
        rw [tokenize_go, hdrop, htake, tokenize_item_clean hx_ne hx_trim]
        show [x] ++ tokenize_go [d] fuel (strlist_join (y :: ys) d) =
          x :: y :: ys
        rw [hrec]
        rfl

/-- C9 (counterexample): the round-trip law fails as stated.  The element
" a" contains no delimiter and is nonempty after trimming, yet tokenizing the
joined string returns the trimmed token "a", not the original element: the
tokenizer trims every token, so any element carrying leading or trailing
whitespace is not reproduced. -/
theorem tokenize_join_claim_counterexample :
    (∀ e ∈ [[' ', 'a']], (',' : Char) ∉ e ∧ trim_spaces e ≠ []) ∧
    tokenize_to_strlist (strlist_join [[' ', 'a']] ',') [','] ≠
      some [[' ', 'a']] := by
  decide

/-- C9 (amended): for every nonempty string list whose elements contain no
delimiter character, are nonempty, and carry no leading or trailing
whitespace (so that trimming leaves them unchanged), tokenizing the string
formed by joining the elements with the delimiter yields exactly the original
list.  (The nonemptiness of the list is needed because tokenizing an empty
string returns the "no tokens" ENOENT sentinel rather than an empty list.) -/
theorem tokenize_join_amended (l : List (List Char)) (d : Char)
    (hne : l ≠ [])
    (hcond : ∀ e ∈ l, e ≠ [] ∧ trim_spaces e = e ∧ d ∉ e) :
    tokenize_to_strlist (strlist_join l d) [d] = some l := by
  have hgo := tokenize_go_of_clean d l ((strlist_join l d).length + 1) hne
    (Nat.lt_succ_self _) hcond
  unfold tokenize_to_strlist
  rw [hgo]
  simp [hne]

/-- C9 (witness): the amended round-trip at the concrete list ["ab", "c"]
with delimiter a comma. -/
theorem tokenize_join_amended_witness :
    tokenize_to_strlist (strlist_join [['a', 'b'], ['c']] ',') [','] =
      some [['a', 'b'], ['c']] :=
  tokenize_join_amended [['a', 'b'], ['c']] ',' (by decide) (by decide)

/-- C10: `strlist_copy` applied to a two-element list returns only (a copy
of) the first node and drops the tail, contradicting its own documentation
("Return a copy of LIST"): the update `last = &sl;` should have been
`last = &sl->next;`, so every node after the first is stored into the dead
local variable instead of being linked into the result. -/
theorem strlist_copy_drops_tail :
    strlist_copy [⟨['a'], 0⟩, ⟨['b'], 1⟩] = [⟨['a'], 0⟩] ∧
    strlist_copy [⟨['a'], 0⟩, ⟨['b'], 1⟩] ≠ [⟨['a'], 0⟩, ⟨['b'], 1⟩] := by
  decide

end Strlist

namespace FdCache

/-- One slot of the close cache (struct close_cache_s): the path and the
cached OS handle.  `none` models GNUPG_INVALID_FD. -/
structure CacheSlot where
  fname : List Char
  fp : Option Nat
deriving DecidableEq, Repr

/-- `fd_cache_open` (iobuf.c:420-455).  The scan looks for the first live
slot whose path matches (fd_cache_strcmp is plain strcmp on non-DOSish
systems, i.e. list equality), detaches the handle (the slot keeps
GNUPG_INVALID_FD) and rewinds it to offset 0 with lseek; when the rewind
fails the function overwrites the detached handle with GNUPG_INVALID_FD and
returns it: it does NOT fall back to `direct_open`.  Only when no live slot
matches does it call `direct_open (fname, mode, 0)`.  The OS is abstracted by
the two oracles `rewindOk` (outcome of lseek on a handle) and `openOS`
(outcome of direct_open on the path). -/
def fd_cache_open (rewindOk : Nat → Bool) (openOS : List Char → Option Nat)
    (fname : List Char) : List CacheSlot → Option Nat × List CacheSlot
  | [] => (openOS fname, [])
  | cc :: rest =>
    match cc.fp with
    | some fp =>
      if cc.fname = fname then
        (if rewindOk fp then some fp else none, { cc with fp := none } :: rest)
      else
        let r := fd_cache_open rewindOk openOS fname rest
        (r.1, cc :: r.2)
    | none =>
      let r := fd_cache_open rewindOk openOS fname rest
      (r.1, cc :: r.2)

/-- C6 (counterexample): a cache holding one live slot for path "x" with
handle 3 whose rewind fails, while a direct open of "x" would deliver the
usable handle 7.  The claim says the open falls back to a fresh direct open
and returns a usable handle; the code instead returns GNUPG_INVALID_FD
(`none`), never attempting the fresh open. -/
theorem fd_cache_open_rewind_claim_counterexample :
    fd_cache_open (fun _ => false) (fun _ => some 7) [
      'x'] [⟨['x'], some 3⟩] = (none, [⟨['x'], none⟩]) ∧
    (none : Option Nat) ≠ some 7 := by
  decide

/-- C6 (amended): when the first live slot matching the requested path fails
to rewind, only that slot is invalidated (every other slot, before or after
it, is left untouched) and `fd_cache_open` returns GNUPG_INVALID_FD without
attempting a fresh direct open of the path. -/
theorem fd_cache_open_rewind_amended (rewindOk : Nat → Bool)
    (openOS : List Char → Option Nat) (fname : List Char)
    (pre post : List CacheSlot) (s : CacheSlot) (fp : Nat)
    (hpre : ∀ t ∈ pre, t.fp = none ∨ t.fname ≠ fname)
    (hs : s.fp = some fp) (hname : s.fname = fname)
    (hrw : rewindOk fp = false) :
    fd_cache_open rewindOk openOS fname (pre ++ s :: post) =
      (none, pre ++ { s with fp := none } :: post) := by
  induction pre with
  | nil =>
    simp only [List.nil_append]
    unfold fd_cache_open
    rw [hs]
    simp [hname, hrw]
  | cons t ts ih =>
    have ht := hpre t (by simp)
    have hrest := ih (fun u hu => hpre u (by simp [hu]))
    simp only [List.cons_append]
    unfold fd_cache_open
    rcases ht with h | h
    · rw [h]
      simp [hrest]
    · cases hfp : t.fp with
      | none => simp [hrest]
      | some v => simp [h, hrest]

/-- C6 (witness): the amended statement at a concrete two-slot cache. -/
theorem fd_cache_open_rewind_amended_witness :
    fd_cache_open (fun _ => false) (fun _ => some 7) ['x']
      [⟨['y'], some 9⟩, ⟨['x'], some 3⟩, ⟨['x'], some 4⟩] =
      (none, [⟨['y'], some 9⟩, ⟨['x'], none⟩, ⟨['x'], some 4⟩]) :=
  fd_cache_open_rewind_amended (fun _ => false) (fun _ => some 7) ['x']
    [⟨['y'], some 9⟩] [⟨['x'], some 4⟩] ⟨['x'], some 3⟩ 3
    (by decide) rfl rfl rfl

end FdCache

namespace Iobuf

/-- DEFAULT_IOBUF_BUFFER_SIZE; the write-once knob iobuf_set_buffer_size is
never exercised before the modelled scenarios, so the buffer size is the
default. -/
def iobuf_buffer_size : Nat := 64 * 1024

def MAX_NESTING_FILTER : Nat := 64

def IOBUF_ZEROCOPY_THRESHOLD_SIZE : Nat := 1024

def OP_MIN_PARTIAL_CHUNK : Nat := 512

def OP_MIN_PARTIAL_CHUNK_2POW : Nat := 9

/-- gpg-error code GPG_ERR_BAD_DATA (the numeric value is not load-bearing;
it only needs to be a positive error distinct from 0 and -1). -/
def GPG_ERR_BAD_DATA : Int := 89

/-- gpg-error code GPG_ERR_INTERNAL (numeric value not load-bearing). -/
def GPG_ERR_INTERNAL : Int := 63

/-- Stands for the process abort performed by BUG()/log_bug/log_assert.  The
C functions never return in these situations; the model returns this
distinguished code instead.  None of the modelled scenarios reach it. -/
def RC_LOG_BUG : Int := 1000

/-- Read-side state of the block filter (block_filter_ctx_t restricted to the
fields the IOBUFCTRL_UNDERFLOW path touches): `size` is the number of bytes
still to read in the current segment, `pmode` is a->partial (1 = reading
partial headers, 2 = inside the last packet), `first_c` holds the length
octet handed over at init time (0 = none), `eof` is the EOF latch. -/
structure BlockRCtx where
  size : Nat
  pmode : Nat
  first_c : Nat
  eof : Bool
deriving DecidableEq, Repr

/-- Outcome of a block-filter underflow call: the return code, the bytes
delivered (*ret_len of them), the new filter context and the rest of the
downstream chain. -/
structure BlockReadRes where
  rc : Int
  bytes : List Nat
  ctx : BlockRCtx
  chain : List Nat
deriving DecidableEq, Repr

/-- Length-header decoding of the block filter read side (iobuf.c:970-1032),
given the first length octet C and the chain positioned after it.  Returns
(rc, segment length, new a->partial, rest of chain).  `1 << (c & 0x1f)`
is written `2 ^ (c % 32)` (masking the low five bits is reduction mod 32).
On a missing-octet error the C code leaves a->size and a->partial at the
values reached so far and has consumed whatever the chain still held. -/
def block_header_decode (c : Nat) (chain : List Nat) :
    Int × Nat × Nat × List Nat :=
  if c < 192 then (0, c, 2, chain)
  else if c < 224 then
    match chain with
    | [] => (GPG_ERR_BAD_DATA, (c - 192) * 256, 1, [])
    | c2 :: rest => (0, (c - 192) * 256 + c2 + 192, 2, rest)
  else if c = 255 then
    match chain with
    | b0 :: b1 :: b2 :: b3 :: rest =>
      (0, ((b0 * 256 + b1) * 256 + b2) * 256 + b3, 2, rest)
    | _ => (GPG_ERR_BAD_DATA, 0, 1, [])
  else (0, 2 ^ (c % 32), 1, chain)

/-- The head of each iteration of the block filter underflow loop
(iobuf.c:944-1037): when the current segment is exhausted, either latch EOF
(a->partial == 2) or fetch the next length octet (from a->first_c if set,
else from the chain) and decode it; a zero-length final segment latches EOF
at once.  Returns either the updated (context, chain) ready for the read
step, or an early result.  ACC holds the bytes collected so far (the C
variable n).  a->partial == 0 in input mode is BUG(). -/
def block_read_header_step (ctx : BlockRCtx) (chain : List Nat)
    (acc : List Nat) : (BlockRCtx × List Nat) ⊕ BlockReadRes :=
  if ctx.size ≠ 0 then .inl (ctx, chain)
  else if ctx.pmode = 2 then
    .inr ⟨if acc = [] then -1 else 0, acc, { ctx with eof := true }, chain⟩
  else if ctx.pmode = 1 then
    match (if ctx.first_c ≠ 0 then some (ctx.first_c, chain)
           else match chain with
                | [] => none
                | c :: r => some (c, r)) with
    | none => .inr ⟨GPG_ERR_BAD_DATA, acc, ctx, chain⟩
    | some (c, chain1) =>
      match block_header_decode c chain1 with
      | (rc, sz, pm, chain2) =>
        let ctx1 := { ctx with first_c := 0, size := sz, pmode := pm }
        if rc ≠ 0 then .inr ⟨rc, acc, ctx1, chain2⟩
        else if sz = 0 then
          .inr ⟨if acc = [] then -1 else 0, acc,
            { ctx1 with eof := true }, chain2⟩
        else .inl (ctx1, chain2)
  else .inr ⟨RC_LOG_BUG, acc, ctx, chain⟩

/-- The while loop of the block filter underflow (iobuf.c:944-1060).  Each
round fetches a length header if needed and then reads
min(size, a->size) bytes from the chain (`iobuf_read (chain, p, needed)`
on a plain byte source delivers min(needed, available) bytes); a short
read is a BAD_DATA error (the partially read bytes are not counted in n).
Each non-returning round consumes at least one byte of SIZE, so fuel
SIZE + 1 never runs out. -/
def block_read_go : Nat → BlockRCtx → List Nat → Nat → List Nat →
    BlockReadRes
  | 0, ctx, chain, _, acc => ⟨0, acc, ctx, chain⟩
  | fuel + 1, ctx, chain, size, acc =>
    if size = 0 then ⟨0, acc, ctx, chain⟩
    else
      match block_read_header_step ctx chain acc with
      | .inr res => res
      | .inl (ctx1, chain1) =>
        let needed := min size ctx1.size
        if chain1.length < needed then ⟨GPG_ERR_BAD_DATA, acc, ctx1, []⟩
        else
          block_read_go fuel { ctx1 with size := ctx1.size - needed }
            (chain1.drop needed) (size - needed) (acc ++ chain1.take needed)

/-- One IOBUFCTRL_UNDERFLOW call of the block filter (iobuf.c:936-1062) with
request SIZE over a chain modelled as the byte list it would deliver. -/
def block_read (ctx : BlockRCtx) (chain : List Nat) (size : Nat) :
    BlockReadRes :=
  if ctx.eof then ⟨-1, [], ctx, chain⟩
  else block_read_go (size + 1) ctx chain size []

/-- C4: decoding of a segment length from its first length octet L on the
block filter read side.  For 192 ≤ L < 224 a second octet L2 is read and the
length is ((L − 192) << 8) + L2 + 192, final segment (a->partial = 2); for
L = 255 the length is the next four octets big-endian, final segment; for
224 ≤ L ≤ 254 the segment is partial (a->partial stays 1, more segments
follow) with length 1 << (L & 0x1F). -/
theorem block_header_decode_cases (L L2 b0 b1 b2 b3 : Nat)
    (rest : List Nat) :
    (192 ≤ L → L < 224 →
      block_header_decode L (L2 :: rest) =
        (0, (L - 192) * 256 + L2 + 192, 2, rest)) ∧
    (L = 255 →
      block_header_decode L (b0 :: b1 :: b2 :: b3 :: rest) =
        (0, ((b0 * 256 + b1) * 256 + b2) * 256 + b3, 2, rest)) ∧
    (224 ≤ L → L ≤ 254 →
      block_header_decode L rest = (0, 2 ^ (L % 32), 1, rest)) := by
  refine ⟨?_, ?_, ?_⟩
  · intro h1 h2
    rw [block_header_decode.eq_def, if_neg (by omega), if_pos h2]
  · intro h
    subst h
    rw [block_header_decode.eq_def, if_neg (by omega), if_neg (by omega),
      if_pos rfl]
  · intro h1 h2
    rw [block_header_decode.eq_def, if_neg (by omega), if_neg (by omega),
      if_neg (by omega)]

/-- C4 (witness): the three header shapes at the concrete octets 200
(two-octet final length), 255 (five-octet final length) and 233 (partial,
2^9 = 512). -/
theorem block_header_decode_cases_witness :
    (block_header_decode 200 (5 :: [7]) = (0, (200 - 192) * 256 + 5 + 192, 2, [7])) ∧
    (block_header_decode 255 (1 :: 2 :: 3 :: 4 :: [7]) =
      (0, ((1 * 256 + 2) * 256 + 3) * 256 + 4, 2, [7])) ∧
    (block_header_decode 233 [7] = (0, 2 ^ (233 % 32), 1, [7])) :=
  ⟨(block_header_decode_cases 200 5 0 0 0 0 [7]).1 (by decide) (by decide),
   (block_header_decode_cases 255 0 1 2 3 4 [7]).2.1 rfl,
   (block_header_decode_cases 233 0 0 0 0 0 [7]).2.2 (by decide) (by decide)⟩

end Iobuf

namespace Iobuf

/-- iobuf direction (the `use` field). -/
inductive Use where
  | input
  | inputTemp
  | output
  | outputTemp
deriving DecidableEq, Repr

/-- The internal buffer of a filter node (the anonymous struct `d` of
struct iobuf_struct): owning byte array, its allocated size, the used
length and the read cursor. -/
structure BufD where
  buf : List Nat
  size : Nat
  len : Nat
  start : Nat
deriving DecidableEq, Repr

/-- The external drain descriptor `e_d`: whether the caller-supplied buffer
pointer is set (`present` models `buf != NULL`; the buffer itself belongs to
the caller, so only bookkeeping lives here), its usable length, the bytes
delivered through it, and the preference flag. -/
structure ExtD where
  present : Bool
  len : Nat
  used : Nat
  preferred : Bool
deriving DecidableEq, Repr

/-- A filter callback together with the control verbs it serves.  The C ABI
is a single function taking a control code; we split it per verb:
`under` (IOBUFCTRL_UNDERFLOW) takes the requested byte count and returns
(rc, bytes produced, new context); `flushf` (IOBUFCTRL_FLUSH) takes the
source bytes and returns (rc, accepted count, new context); `initf`
(IOBUFCTRL_INIT) and `freef` (IOBUFCTRL_FREE) return (rc, new context).
A filter that talks to the downstream chain carries that chain inside its
context (for the pipelines modelled here the chain below such a filter is a
temp buffer or a plain byte source, i.e. a list). -/
structure Filter (σ : Type) where
  under : σ → Nat → Int × List Nat × σ
  flushf : σ → List Nat → Int × Nat × σ
  initf : σ → Int × σ
  freef : σ → Int × σ

/-- One node of a pipeline (struct iobuf_struct).  `flt` bundles the filter
callback with its context (`filter` and `filter_ov`, set and cleared
together); `fltOwner` is `filter_ov_owner`. -/
structure Node (σ : Type) where
  use : Use
  d : BufD
  flt : Option (Filter σ × σ)
  fltOwner : Bool
  filterEof : Bool
  error : Int
  eD : ExtD
  nbytes : Nat
  ntotal : Nat
  nlimit : Nat
  nofast : Bool
  no : Nat
  subno : Nat
  realFname : Option (List Char)

/-- A pipeline: the head node (the object all external handles point to) and
the chain of nodes below it (`head.chain` in C is `rest.head?`, and so on). -/
structure Pipeline (σ : Type) where
  head : Node σ
  rest : List (Node σ)

/-- `iobuf_alloc` (iobuf.c:1272-1298): a fresh node with an uninitialized
buffer of BUFSIZE bytes (malloc junk is modelled as zeros; nothing ever reads
past `len`). -/
def iobuf_alloc (u : Use) (bufsize : Nat) : Node σ where
  use := u
  d := { buf := List.replicate bufsize 0, size := bufsize, len := 0, start := 0 }
  flt := none
  fltOwner := false
  filterEof := false
  error := 0
  eD := { present := false, len := 0, used := 0, preferred := false }
  nbytes := 0
  ntotal := 0
  nlimit := 0
  nofast := false
  no := 1
  subno := 0
  realFname := none

/-- Overwrite BUF at position POS with BS (the effect of
`memcpy (buf + pos, bs, |bs|)` on a buffer of fixed allocation). -/
def writeAt (buf : List Nat) (pos : Nat) (bs : List Nat) : List Nat :=
  buf.take pos ++ bs ++ buf.drop (pos + bs.length)

/-- The compaction step of underflow_target (iobuf.c:1974-1978): move the
not-yet-consumed bytes to offset 0 and reset the cursor. -/
def compact (d : BufD) : BufD :=
  let len1 := d.len - d.start
  { buf := (d.buf.drop d.start).take len1 ++ d.buf.drop len1
    size := d.size
    len := len1
    start := 0 }

/-- Clear the external drain buffer pointer (`a->e_d.buf = NULL;
a->e_d.len = 0;`). -/
def clearED (a : Node σ) : Node σ :=
  { a with eD := { a.eD with present := false, len := 0 } }

/-- The common tail of underflow_target (iobuf.c:2138-2145): report external
delivery, else serve the first buffered byte, else EOF. -/
def underflow_finish (a : Node σ) (rest : List (Node σ)) (ext : List Nat) :
    Int × Pipeline σ × List Nat :=
  if 0 < a.eD.used then (0, ⟨a, rest⟩, ext)
  else if a.d.start < a.d.len then
    (Int.ofNat (a.d.buf.getD a.d.start 0),
      ⟨{ a with d := { a.d with start := a.d.start + 1 } }, rest⟩, ext)
  else (-1, ⟨a, rest⟩, ext)

/-- Reaction of underflow_target to the filter callback's return code
(iobuf.c:2082-2135).  On EOF the filter is sent IOBUFCTRL_FREE (its rc is
only logged) and unlinked; if nothing is buffered the node is spliced out of
the pipeline (when a chain exists and CLEARPENDINGEOF holds) or EOF is
returned directly.  A nonzero error is stored sticky and surfaces at once
only when nothing is buffered. -/
def underflow_handle (clearPendingEof : Bool) (rc : Int) (a : Node σ)
    (rest : List (Node σ)) (ext : List Nat) : Int × Pipeline σ × List Nat :=
  if rc = -1 then
    let a1 := { a with flt := none, filterEof := true }
    if clearPendingEof ∧ a1.d.len = 0 ∧ a1.eD.used = 0 then
      match rest with
      | b :: rest2 => (-1, ⟨b, rest2⟩, ext)
      | [] => (-1, ⟨a1, []⟩, ext)
    else
      if a1.d.len = 0 ∧ a1.eD.used = 0 then (-1, ⟨a1, rest⟩, ext)
      else underflow_finish a1 rest ext
  else if rc ≠ 0 then
    let a1 := { a with error := rc }
    if a1.d.len = 0 ∧ a1.eD.used = 0 then (-1, ⟨a1, rest⟩, ext)
    else underflow_finish a1 rest ext
  else underflow_finish a rest ext

/-- `underflow_target` (iobuf.c:1950-2146).  Returns the C return value (the
first byte consumed, 0 when the external drain was used, or -1), the new
pipeline, and the bytes delivered into the caller's external buffer (empty
unless the zero-copy path ran).  A temp input never refills; the buffer is
compacted; a pending EOF or pending sticky error is surfaced once nothing is
buffered; otherwise the filter is asked to fill either the caller's external
buffer (zero-copy, when nothing is buffered and the external buffer has at
least IOBUF_ZEROCOPY_THRESHOLD_SIZE bytes) or the internal buffer at
`&buf[len]`. -/
def underflow_target (P : Pipeline σ) (clearPendingEof : Bool) (target : Nat) :
    Int × Pipeline σ × List Nat :=
  let a0 := P.head
  if a0.use = .inputTemp then (-1, P, [])
  else if a0.use ≠ .input then (RC_LOG_BUG, P, [])
  else
    let a := { a0 with eD := { a0.eD with used := 0 }, d := compact a0.d }
    if a.d.len < target ∧ a.filterEof then
      if ¬ clearPendingEof then (-1, ⟨a, P.rest⟩, [])
      else
        match P.rest with
        | b :: rest2 => (-1, ⟨b, rest2⟩, [])
        | [] => (-1, ⟨{ a with filterEof := false }, []⟩, [])
    else if a.d.len = 0 ∧ a.error ≠ 0 then (-1, ⟨a, P.rest⟩, [])
    else
      match a.flt with
      | some (f, s) =>
        if ¬ a.filterEof ∧ a.error = 0 then
          let len0 := a.d.size - a.d.len
          let len1 :=
            if a.eD.preferred ∧ a.d.len < IOBUF_ZEROCOPY_THRESHOLD_SIZE
                ∧ IOBUF_ZEROCOPY_THRESHOLD_SIZE - a.d.len < len0 then
              IOBUF_ZEROCOPY_THRESHOLD_SIZE - a.d.len
            else len0
          if len1 = 0 then underflow_finish a P.rest []
          else if a.d.len = 0 ∧ a.eD.present = true
              ∧ IOBUF_ZEROCOPY_THRESHOLD_SIZE ≤ a.eD.len then
            match f.under s a.eD.len with
            | (rc, bs, s1) =>
              let a1 :=
                { a with
                  eD := { a.eD with used := bs.length }
                  flt := some (f, s1) }
              underflow_handle clearPendingEof rc a1 P.rest bs
          else
            match f.under s len1 with
            | (rc, bs, s1) =>
              let a1 :=
                { a with
                  d := { a.d with
                         buf := writeAt a.d.buf a.d.len bs
                         len := a.d.len + bs.length }
                  flt := some (f, s1) }
              underflow_handle clearPendingEof rc a1 P.rest []
        else underflow_finish a P.rest []
      | none => underflow_finish a P.rest []

/-- `underflow` (iobuf.c:1939-1943). -/
def underflow (P : Pipeline σ) (clearPendingEof : Bool) :
    Int × Pipeline σ × List Nat :=
  underflow_target P clearPendingEof 1

/-- `filter_flush` (iobuf.c:2149-2204).  EXTSRC is the memory the caller's
`e_d.buf` points into during `iobuf_write` (the external source bytes); it is
consulted only when the internal buffer is empty and the external descriptor
is set.  An OUTPUT_TEMP node just grows its buffer by iobuf_buffer_size. -/
def filter_flush (P : Pipeline σ) (extSrc : List Nat) : Int × Pipeline σ :=
  let a0 := P.head
  let a := { a0 with eD := { a0.eD with used := 0 } }
  if a.use = .outputTemp then
    let d1 : BufD :=
      { buf := a.d.buf ++ List.replicate iobuf_buffer_size 0
        size := a.d.size + iobuf_buffer_size
        len := a.d.len
        start := a.d.start }
    (0, ⟨{ a with d := d1 }, P.rest⟩)
  else if a.use ≠ .output then (RC_LOG_BUG, ⟨a, P.rest⟩)
  else
    match a.flt with
    | none => (RC_LOG_BUG, ⟨a, P.rest⟩)
    | some (f, s) =>
      let extUsed : Bool := a.d.len == 0 && a.eD.present && a.eD.len != 0
      let src := if extUsed then extSrc.take a.eD.len else a.d.buf.take a.d.len
      match f.flushf s src with
      | (rc, accepted, s1) =>
        let rc1 := if rc = 0 ∧ accepted ≠ src.length then GPG_ERR_INTERNAL
                   else rc
        let a1 :=
          { a with
            flt := some (f, s1)
            error := if rc ≠ 0 then rc else a.error
            d := { a.d with len := 0 }
            eD := if extUsed then { a.eD with used := accepted } else a.eD }
        (rc1, ⟨a1, P.rest⟩)

/-- `iobuf_writebyte` (iobuf.c:2393-2410). -/
def iobuf_writebyte (P : Pipeline σ) (c : Nat) : Int × Pipeline σ :=
  if P.head.use = .input ∨ P.head.use = .inputTemp then (RC_LOG_BUG, P)
  else
    let step := if P.head.d.len = P.head.d.size then filter_flush P []
                else (0, P)
    if step.1 ≠ 0 then step
    else
      let a := step.2.head
      if a.d.len < a.d.size then
        let d1 : BufD :=
          { a.d with
            buf := writeAt a.d.buf a.d.len [c]
            len := a.d.len + 1 }
        (0, ⟨{ a with d := d1 }, step.2.rest⟩)
      else (RC_LOG_BUG, step.2)

/-- One pass of the `iobuf_write` do-while body (iobuf.c:2432-2485): set up
the external drain descriptor when the buffer is empty and at least a
threshold of input remains, else copy into the internal buffer; flush when
input remains; consume what the flush moved out through the external
descriptor.  Returns an early error exit or the state for the next pass. -/
def iobuf_write_body (P : Pipeline σ) (remaining : List Nat) :
    (Int × Pipeline σ) ⊕ (Pipeline σ × List Nat) :=
  let a0 := P.head
  let el := remaining.length / IOBUF_ZEROCOPY_THRESHOLD_SIZE
              * IOBUF_ZEROCOPY_THRESHOLD_SIZE
  let a1 := if a0.use ≠ .outputTemp ∧ a0.d.len = 0
                ∧ IOBUF_ZEROCOPY_THRESHOLD_SIZE ≤ remaining.length then
              { a0 with
                eD := { a0.eD with present := decide (el ≠ 0), len := el } }
            else a0
  let step :=
    if a1.eD.present = false ∧ remaining ≠ [] ∧ a1.d.len < a1.d.size then
      let sz0 := if a1.eD.preferred = true
                    ∧ a1.d.len < IOBUF_ZEROCOPY_THRESHOLD_SIZE then
                   IOBUF_ZEROCOPY_THRESHOLD_SIZE - a1.d.len
                 else a1.d.size - a1.d.len
      let sz := min sz0 remaining.length
      let d1 : BufD :=
        { a1.d with
          buf := writeAt a1.d.buf a1.d.len (remaining.take sz)
          len := a1.d.len + sz }
      ({ a1 with d := d1 }, remaining.drop sz)
    else (a1, remaining)
  match step with
  | (a2, rem1) =>
    if rem1 = [] then .inr (⟨clearED a2, P.rest⟩, [])
    else
      match filter_flush ⟨a2, P.rest⟩ rem1 with
      | (rc, P1) =>
        if rc ≠ 0 then .inl (rc, ⟨clearED P1.head, P1.rest⟩)
        else
          let b := P1.head
          let rem2 := if b.eD.present = true ∧ 0 < b.eD.used then
                        rem1.drop b.eD.used
                      else rem1
          .inr (⟨clearED b, P1.rest⟩, rem2)

/-- The `iobuf_write` do-while loop.  Every two passes consume at least one
byte of input for the well-behaved filters modelled here, so fuel
2·|input| + 4 never runs out. -/
def iobuf_write_go : Nat → Pipeline σ → List Nat → Int × Pipeline σ
  | 0, P, _ => (0, P)
  | fuel + 1, P, remaining =>
    match iobuf_write_body P remaining with
    | .inl r => r
    | .inr (P1, rem1) =>
      if rem1 = [] then (0, P1) else iobuf_write_go fuel P1 rem1

/-- `iobuf_write` (iobuf.c:2413-2488). -/
def iobuf_write (P : Pipeline σ) (bs : List Nat) : Int × Pipeline σ :=
  if P.head.use = .input ∨ P.head.use = .inputTemp then (RC_LOG_BUG, P)
  else
    let e1 : ExtD :=
      { present := false
        len := 0
        used := P.head.eD.used
        preferred := decide (P.head.use ≠ .outputTemp
          ∧ IOBUF_ZEROCOPY_THRESHOLD_SIZE ≤ bs.length) }
    iobuf_write_go (2 * bs.length + 4) ⟨{ P.head with eD := e1 }, P.rest⟩ bs

/-- `iobuf_readbyte` (iobuf.c:2207-2237). -/
def iobuf_readbyte (P : Pipeline σ) : Int × Pipeline σ :=
  if P.head.use = .output ∨ P.head.use = .outputTemp then (-1, P)
  else if P.head.nlimit ≠ 0 ∧ P.head.nlimit ≤ P.head.nbytes then (-1, P)
  else if P.head.d.start < P.head.d.len then
    let a := P.head
    (Int.ofNat (a.d.buf.getD a.d.start 0),
      ⟨{ a with
         d := { a.d with start := a.d.start + 1 }
         nbytes := a.nbytes + 1 }, P.rest⟩)
  else
    match underflow P true with
    | (c, P1, _) =>
      if c = -1 then (-1, P1)
      else (c, ⟨{ P1.head with nbytes := P1.head.nbytes + 1 }, P1.rest⟩)

/-- The special-case loop of `iobuf_read` when a read limit is active
(iobuf.c:2252-2271): byte-by-byte via iobuf_readbyte. -/
def iobuf_read_nlimit : Nat → Pipeline σ → Nat → Nat → List Nat →
    Int × Pipeline σ × List Nat
  | 0, P, _, n, acc => (Int.ofNat n, P, acc)
  | fuel + 1, P, r, n, acc =>
    if r ≤ n then (Int.ofNat n, P, acc)
    else
      match iobuf_readbyte P with
      | (c, P1) =>
        if c = -1 then (if n = 0 then -1 else Int.ofNat n, P1, acc)
        else iobuf_read_nlimit fuel P1 r (n + 1) (acc ++ [c.toNat])

/-- The main `iobuf_read` loop (iobuf.c:2280-2345): drain the internal
buffer, then set up the external drain descriptor for the multiple of the
zero-copy threshold still missing and call underflow; a returned byte or an
external delivery advances N; EOF ends the call.  Each pass delivers at
least one byte or returns, so fuel R + 1 suffices. -/
def iobuf_read_go : Nat → Pipeline σ → Nat → Nat → List Nat →
    Int × Pipeline σ × List Nat
  | 0, P, _, n, acc => (Int.ofNat n, P, acc)
  | fuel + 1, P, r, n, acc =>
    let a := P.head
    let drained :=
      if n < r ∧ a.d.start < a.d.len then
        let sz := min (a.d.len - a.d.start) (r - n)
        (({ a with d := { a.d with start := a.d.start + sz } } : Node σ),
          n + sz, acc ++ (a.d.buf.drop a.d.start).take sz)
      else (a, n, acc)
    match drained with
    | (a1, n1, acc1) =>
      if n1 < r then
        let el := (r - n1) / IOBUF_ZEROCOPY_THRESHOLD_SIZE
                    * IOBUF_ZEROCOPY_THRESHOLD_SIZE
        let a2 := if a1.use ≠ .inputTemp then
                    { a1 with
                      eD := { a1.eD with
                              present := decide (el ≠ 0)
                              len := el } }
                  else a1
        match underflow ⟨a2, P.rest⟩ true with
        | (c, P1, ext) =>
          if c = -1 then
            (if n1 = 0 then -1 else Int.ofNat n1,
              ⟨{ clearED P1.head with nbytes := P1.head.nbytes + n1 },
                P1.rest⟩, acc1)
          else
            let b := P1.head
            if b.eD.present = true ∧ 0 < b.eD.used then
              let n2 := n1 + b.eD.used
              if n2 < r then
                iobuf_read_go fuel ⟨clearED b, P1.rest⟩ r n2 (acc1 ++ ext)
              else
                (Int.ofNat n2, ⟨{ clearED b with nbytes := b.nbytes + n2 },
                  P1.rest⟩, acc1 ++ ext)
            else
              let n2 := n1 + 1
              if n2 < r then
                iobuf_read_go fuel ⟨clearED b, P1.rest⟩ r n2 (acc1 ++ [c.toNat])
              else
                (Int.ofNat n2, ⟨{ clearED b with nbytes := b.nbytes + n2 },
                  P1.rest⟩, acc1 ++ [c.toNat])
      else (Int.ofNat n1, ⟨{ a1 with nbytes := a1.nbytes + n1 }, P.rest⟩, acc1)

/-- `iobuf_read` (iobuf.c:2240-2346).  Returns the C return value (bytes
read or -1), the new pipeline, and the bytes placed into the caller's
buffer. -/
def iobuf_read (P : Pipeline σ) (r : Nat) : Int × Pipeline σ × List Nat :=
  if P.head.use = .output ∨ P.head.use = .outputTemp then (-1, P, [])
  else if P.head.nlimit ≠ 0 then iobuf_read_nlimit (r + 1) P r 0 []
  else
    let e1 : ExtD :=
      { present := false
        len := 0
        used := P.head.eD.used
        preferred := decide (P.head.use ≠ .inputTemp
          ∧ IOBUF_ZEROCOPY_THRESHOLD_SIZE ≤ r) }
    iobuf_read_go (r + 1) ⟨{ P.head with eD := e1 }, P.rest⟩ r 0 []

/-- The refill loop of `iobuf_peek` (iobuf.c:2364-2374): underflow_target
with CLEARPENDINGEOF = 0, ungetting the consumed byte by resetting the
cursor (the C code asserts the cursor is at 1 after a successful
underflow). -/
def iobuf_peek_go : Nat → Pipeline σ → Nat → Int × Pipeline σ
  | 0, P, _ => (0, P)
  | fuel + 1, P, r =>
    if r ≤ P.head.d.len - P.head.d.start then (0, P)
    else
      match underflow_target P false r with
      | (c, P1, _) =>
        if c = -1 then (0, P1)
        else if P1.head.d.start = 1 then
          iobuf_peek_go fuel
            ⟨{ P1.head with d := { P1.head.d with start := 0 } }, P1.rest⟩ r
        else (RC_LOG_BUG, P1)

/-- `iobuf_peek` (iobuf.c:2351-2387). -/
def iobuf_peek (P : Pipeline σ) (r : Nat) : Int × Pipeline σ × List Nat :=
  if ¬ (P.head.use = .input ∨ P.head.use = .inputTemp) then (RC_LOG_BUG, P, [])
  else
    let r1 := min r P.head.d.size
    match iobuf_peek_go (r1 + 1) P r1 with
    | (brc, P1) =>
      if brc ≠ 0 then (brc, P1, [])
      else
        let a := P1.head
        let n := min (a.d.len - a.d.start) r1
        if n = 0 then (-1, ⟨a, P1.rest⟩, [])
        else (Int.ofNat n, ⟨a, P1.rest⟩, (a.d.buf.drop a.d.start).take n)

/-- `iobuf_push_filter2` (iobuf.c:1705-1845).  An output head is flushed
first; a nesting depth of MAX_NESTING_FILTER refuses with GPG_ERR_BAD_DATA.
Otherwise the head's state is copied wholesale into a fresh shadow node B
(`memcpy (b, a, sizeof *b)`, with real_fname strdup-ed to the same value),
the head A is reset (filter fields cleared, temp uses demoted to their
stream variants with the default buffer size, a fresh empty buffer, the
read-limit bookkeeping rolled into ntotal), A is relinked so that A.chain
is B, the new callback and context are installed on A, and the new filter's
IOBUFCTRL_INIT runs (its rc is returned, but the push has already taken
place).  External handles keep pointing at A, which is the function's whole
point: in this model that is reflected by the result being the same
`Pipeline` object with its `head` mutated in place. -/
def iobuf_push_filter2 (P : Pipeline σ) (f : Filter σ) (ov : σ)
    (relOv : Bool) : Int × Pipeline σ :=
  let step := if P.head.use = .output then filter_flush P [] else (0, P)
  if step.1 ≠ 0 then step
  else if MAX_NESTING_FILTER ≤ step.2.head.subno then
    (GPG_ERR_BAD_DATA, step.2)
  else
    let b := step.2.head
    let a1 : Node σ :=
      { b with flt := none, fltOwner := false, filterEof := false }
    let a2 := if a1.use = .outputTemp then
                { a1 with
                  use := .output
                  d := { a1.d with size := iobuf_buffer_size } }
              else if a1.use = .inputTemp then
                { a1 with
                  use := .input
                  d := { a1.d with size := iobuf_buffer_size } }
              else a1
    let a3 :=
      { a2 with
        d := { buf := List.replicate a2.d.size 0
               size := a2.d.size
               len := 0
               start := 0 }
        ntotal := b.ntotal + b.nbytes
        nlimit := 0
        nbytes := 0
        nofast := false }
    match f.initf ov with
    | (rcInit, s1) =>
      (rcInit, ⟨{ a3 with
                  flt := some (f, s1)
                  fltOwner := relOv
                  subno := b.subno + 1 }, b :: step.2.rest⟩)

/-- `iobuf_push_filter` (iobuf.c:1696-1703). -/
def iobuf_push_filter (P : Pipeline σ) (f : Filter σ) (ov : σ) :
    Int × Pipeline σ :=
  iobuf_push_filter2 P f ov false

/-- `iobuf_pop_filter` (iobuf.c:1850-1932) for the cases that do not
terminate the process: a temp head is a no-op; a head without a filter is
replaced by its chain; otherwise the first matching filter must be the head
itself (every other position is log_bug), which is flushed (output), sent
IOBUFCTRL_FREE, and replaced by its chain. -/
def iobuf_pop_filter (P : Pipeline σ) : Int × Pipeline σ :=
  if P.head.use = .inputTemp ∨ P.head.use = .outputTemp then (0, P)
  else
    match P.head.flt with
    | none =>
      match P.rest with
      | b :: rest2 => (0, ⟨b, rest2⟩)
      | [] => (RC_LOG_BUG, P)
    | some _ =>
      let step := if P.head.use = .output then filter_flush P [] else (0, P)
      if step.1 ≠ 0 then step
      else
        match step.2.head.flt with
        | some (f, s) =>
          match f.freef s with
          | (rcF, _) =>
            if rcF ≠ 0 then (rcF, step.2)
            else
              match step.2.rest with
              | b :: rest2 => (0, ⟨b, rest2⟩)
              | [] => (RC_LOG_BUG, step.2)
        | none => (RC_LOG_BUG, step.2)

/-- The per-node reset done by `iobuf_seek` (iobuf.c:2730-2738): the stream
case additionally discards the buffer contents. -/
def resetNodeForSeek (isStream : Bool) (newpos : Nat) (a : Node σ) : Node σ :=
  let a1 := if isStream then { a with d := { a.d with len := 0 } } else a
  { a1 with
    d := { a1.d with start := 0 }
    nbytes := 0
    nlimit := 0
    nofast := false
    ntotal := newpos
    error := 0 }

/-- `iobuf_seek` (iobuf.c:2700-2756).  For stream pipelines the walk finds
the bottom node; LSEEKOK abstracts both "the bottom filter is the file
filter" and the OS lseek outcome (on failure the function returns -1 with
the pipeline untouched).  The reset applies to the node the local variable A
points at after the walk: the bottom node for streams, the head for temps.
The final pop-all loop is vacuous because that node has no chain. -/
def iobuf_seek (P : Pipeline σ) (lseekOk : Bool) (newpos : Nat) :
    Int × Pipeline σ :=
  if P.head.use = .output ∨ P.head.use = .input then
    if ¬ lseekOk then (-1, P)
    else
      match P.rest with
      | [] => (0, ⟨resetNodeForSeek true newpos P.head, []⟩)
      | b :: rest2 =>
        (0, ⟨P.head, (b :: rest2).dropLast ++
          [resetNodeForSeek true newpos ((b :: rest2).getLast (by simp))]⟩)
  else
    (0, ⟨resetNodeForSeek false newpos P.head, P.rest⟩)

end Iobuf

namespace Iobuf

/-- Write-side state of the block filter (block_filter_ctx_t on the
IOBUFCTRL_FLUSH/FREE path with `use = IOBUF_OUTPUT` and `partial = 1`):
`buffer` is a->buffer up to a->buflen (allocation is not tracked; an
unallocated and an empty buffer behave identically), and `sink` collects
every byte the filter wrote to its downstream chain via iobuf_put /
iobuf_write (the chain below it in the modelled pipelines is an OutputTemp,
which simply accumulates bytes). -/
structure BlockWCtx where
  buffer : List Nat
  sink : List Nat
deriving DecidableEq, Repr

/-- The best-matching block length search (iobuf.c:1086-1091): the for loop
doubles BLEN from 1024 while it is ≤ NBYTES and then halves, i.e. it yields
512 (and exponent 9) for NBYTES < 1024 and otherwise the largest power of
two ≤ NBYTES (exponent ⌊log2 NBYTES⌋). -/
def block_best_blen (nbytes : Nat) : Nat × Nat :=
  if nbytes < 1024 then (512, 9) else (2 ^ Nat.log2 nbytes, Nat.log2 nbytes)

/-- The partial-chunk emission loop (iobuf.c:1082-1111).  Each round picks
the best block length, writes the header octet `0xe0 | c` (with c ≤ 0x1f
asserted and the low five bits of 0xe0 clear, the octet is 224 + c), drains
the carry buffer (asserted to hold exactly OP_MIN_PARTIAL_CHUNK bytes when
nonempty), then up to BLEN input bytes, and repeats while at least
OP_MIN_PARTIAL_CHUNK bytes remain.  Returns (rc, leftover input, sink).
Every round moves at least 512 bytes, so fuel nbytes + 1 never runs out. -/
def block_emit_go : Nat → List Nat → List Nat → List Nat →
    Int × List Nat × List Nat
  | 0, _, input, sink => (0, input, sink)
  | fuel + 1, buffered, input, sink =>
    let nbytes := buffered.length + input.length
    let bc := block_best_blen nbytes
    if 31 < bc.2 then (RC_LOG_BUG, input, sink)
    else
      let sink1 := sink ++ [224 + bc.2]
      if buffered.length ≠ 0 ∧ buffered.length ≠ OP_MIN_PARTIAL_CHUNK then
        (RC_LOG_BUG, input, sink1)
      else
        let sink2 := sink1 ++ buffered
        let n := min input.length bc.1
        let sink3 := sink2 ++ input.take n
        let input1 := input.drop n
        if OP_MIN_PARTIAL_CHUNK ≤ input1.length then
          block_emit_go fuel [] input1 sink3
        else (0, input1, sink3)

/-- IOBUFCTRL_FLUSH of the block filter in partial mode (iobuf.c:1063-1123):
less than OP_MIN_PARTIAL_CHUNK pending bytes are stored; otherwise the
emission loop runs and the sub-512 remainder is stored for the next call.
The filter does not touch *ret_len, so the engine sees all SIZE bytes
accepted. -/
def block_flush (ctx : BlockWCtx) (input : List Nat) : Int × Nat × BlockWCtx :=
  let nbytes := input.length + ctx.buffer.length
  if OP_MIN_PARTIAL_CHUNK < ctx.buffer.length then
    (RC_LOG_BUG, input.length, ctx)
  else if nbytes < OP_MIN_PARTIAL_CHUNK then
    (0, input.length, { ctx with buffer := ctx.buffer ++ input })
  else
    match block_emit_go (nbytes + 1) ctx.buffer input ctx.sink with
    | (rc, leftover, sink1) =>
      if rc ≠ 0 then (rc, input.length, { buffer := [], sink := sink1 })
      else (0, input.length, { buffer := leftover, sink := sink1 })

/-- IOBUFCTRL_FREE of the block filter on the write side (iobuf.c:1145-1191):
emit a final non-partial header for the buffered remainder (one octet below
192, the two-octet biased form below 8384, else the five-octet 0xFF form)
followed by the remainder itself, and release the buffer. -/
def block_free_w (ctx : BlockWCtx) : Int × BlockWCtx :=
  let len := ctx.buffer.length
  let hdr :=
    if len < 192 then [len]
    else if len < 8384 then [(len - 192) / 256 + 192, (len - 192) % 256]
    else [255, len / 2 ^ 24 % 256, len / 2 ^ 16 % 256, len / 2 ^ 8 % 256,
          len % 256]
  (0, { buffer := [], sink := ctx.sink ++ hdr ++ ctx.buffer })

/-- The block filter as a write-side filter callback.  IOBUFCTRL_INIT with
a->partial resets count and the buffer; IOBUFCTRL_UNDERFLOW is never sent to
an output pipeline by the engine (iobuf_read refuses those first). -/
def block_filter_w : Filter BlockWCtx :=
  { under := fun s _ => (RC_LOG_BUG, [], s)
    flushf := block_flush
    initf := fun s => (0, { s with buffer := [] })
    freef := block_free_w }

/-- `iobuf_temp` (iobuf.c:1386-1390): a fresh OUTPUT_TEMP pipeline. -/
def iobuf_temp : Pipeline BlockWCtx :=
  ⟨iobuf_alloc .outputTemp iobuf_buffer_size, []⟩

/-- `iobuf_set_partial_body_length_mode (a, len)` with nonzero LEN on an
output pipeline (iobuf.c:2823-2832): push the block filter with a
zero-initialized context (partial = 1). -/
def iobuf_set_partial_body_length_mode_out (P : Pipeline BlockWCtx) :
    Int × Pipeline BlockWCtx :=
  iobuf_push_filter P block_filter_w { buffer := [], sink := [] }

/-- Writing B through a block filter in partial-body mode wrapped around an
OutputTemp and closing the pipeline: push the filter, one iobuf_write of B,
then the close sequence for the head (filter_flush followed by
IOBUFCTRL_FREE, iobuf.c:1300-1338), observing every byte the block filter
sent downstream. -/
def block_write_stream (B : List Nat) : List Nat :=
  let P1 := (iobuf_set_partial_body_length_mode_out iobuf_temp).2
  let P2 := (iobuf_write P1 B).2
  let P3 := (filter_flush P2 []).2
  match P3.head.flt with
  | some (f, s) => ((f.freef s).2).sink
  | none => []

/-- Reading a partial-body stream back: the caller consumes the first length
octet and presents it via first_c (iobuf_set_partial_body_length_mode on an
input pipeline), then the block filter underflows with request REQ. -/
def block_read_stream (S : List Nat) (req : Nat) : List Nat :=
  match S with
  | [] => []
  | h :: t =>
    (block_read { size := 0, pmode := 1, first_c := h, eof := false } t
      req).bytes

end Iobuf

namespace Iobuf

/-- The partial-chunk stream the emission loop produces from INPUT when the
carry buffer is empty: the list of emitted bytes (headers interleaved with
data) and the sub-512 leftover, with the same fuel discipline as
block_emit_go. -/
def encSegs : Nat → List Nat → List Nat × List Nat
  | 0, input => ([], input)
  | fuel + 1, input =>
    let bc := block_best_blen input.length
    let n := min input.length bc.1
    let rem := input.drop n
    if OP_MIN_PARTIAL_CHUNK ≤ rem.length then
      let r := encSegs fuel rem
      ((224 + bc.2) :: input.take n ++ r.1, r.2)
    else ((224 + bc.2) :: input.take n, rem)

theorem block_best_blen_pow (n : Nat) :
    (block_best_blen n).1 = 2 ^ (block_best_blen n).2 := by
  rw [block_best_blen]
  split
  · rfl
  · rfl

theorem block_best_blen_le {n : Nat} (h : 512 ≤ n) :
    (block_best_blen n).1 ≤ n := by
  rw [block_best_blen]
  split
  · simpa using h
  · exact Nat.log2_self_le (by omega)

theorem block_best_blen_c_lo {n : Nat} (h : 512 ≤ n) :
    9 ≤ (block_best_blen n).2 := by
  rw [block_best_blen]
  split
  · simp
  · rename_i h1
    by_contra hc
    have h2 : n.log2 < 9 := by simpa using hc
    have := (Nat.log2_lt (n := n) (by omega)).mp h2
    omega

theorem block_best_blen_c_hi {n k : Nat} (h9 : 9 ≤ k) (h : n < 2 ^ (k + 1)) :
    (block_best_blen n).2 ≤ k := by
  rw [block_best_blen]
  split
  · simpa using h9
  · rename_i h1
    have := (Nat.log2_lt (n := n) (by omega)).mpr h
    omega

theorem block_emit_go_eq (fuel : Nat) : ∀ (input sink : List Nat),
    512 ≤ input.length → input.length < 2 ^ 32 →
    block_emit_go fuel [] input sink =
      (0, (encSegs fuel input).2, sink ++ (encSegs fuel input).1) := by
  induction fuel with
  | zero => intro input sink _ _; simp [block_emit_go, encSegs]
  | succ fuel ih =>
    intro input sink hlo hhi
    have hc : ¬ 31 < (block_best_blen (input.length)).2 := by
      have := block_best_blen_c_hi (n := input.length) (k := 31)
        (by omega) (by omega)
      omega
    rw [block_emit_go, encSegs]
    simp only [List.length_nil, Nat.zero_add, List.nil_append, hc, if_false]
    rw [if_neg (show ¬ ((0 : Nat) ≠ 0 ∧ (0 : Nat) ≠ OP_MIN_PARTIAL_CHUNK)
      by simp)]
    simp only [List.append_nil]
    by_cases hrem : OP_MIN_PARTIAL_CHUNK ≤
        (input.drop (min input.length (block_best_blen input.length).1)).length
    · rw [if_pos hrem, if_pos hrem]
      have hlen2 : (input.drop
          (min input.length (block_best_blen input.length).1)).length
          < 2 ^ 32 := by
        simp only [List.length_drop]
        omega
      rw [ih _ _ hrem hlen2]
      simp [List.append_assoc]
    · rw [if_neg hrem, if_neg hrem]
      simp [List.append_assoc]

/-- When 512 divides the input length, every chunk is a multiple of 512 and
the loop ends with an empty leftover (given at least |input| fuel). -/
theorem encSegs_leftover_nil : ∀ (fuel : Nat) (input : List Nat),
    input.length ≤ fuel → 512 ∣ input.length →
    (encSegs fuel input).2 = [] := by
  intro fuel
  induction fuel with
  | zero =>
    intro input hle hdvd
    have : input.length = 0 := by omega
    rw [encSegs]
    simpa using List.length_eq_zero.mp this
  | succ fuel ih =>
    intro input hle hdvd
    rcases Nat.eq_zero_or_pos input.length with hz | hpos
    · rw [encSegs]
      have hinput : input = [] := List.length_eq_zero.mp hz
      subst hinput
      simp [block_best_blen, OP_MIN_PARTIAL_CHUNK]
    · have hlo : 512 ≤ input.length := by
        rcases hdvd with ⟨k, hk⟩
        rcases Nat.eq_zero_or_pos k with h0 | h1
        · omega
        · omega
      have hble := block_best_blen_le hlo
      have hpow := block_best_blen_pow input.length
      have hclo := block_best_blen_c_lo hlo
      have hmin : min input.length (block_best_blen input.length).1 =
          (block_best_blen input.length).1 := Nat.min_eq_right hble
      have hdvdb : 512 ∣ (block_best_blen input.length).1 := by
        rw [hpow]
        have : (512 : Nat) = 2 ^ 9 := by norm_num
        rw [this]
        exact Nat.pow_dvd_pow 2 hclo
      have hdrop : (input.drop
          (min input.length (block_best_blen input.length).1)).length =
          input.length - (block_best_blen input.length).1 := by
        simp [List.length_drop, hmin]
      have hdvd2 : 512 ∣ input.length - (block_best_blen input.length).1 :=
        Nat.dvd_sub' hdvd hdvdb
      have hb512 : 512 ≤ (block_best_blen input.length).1 := by
        rw [hpow]
        calc (512 : Nat) = 2 ^ 9 := by norm_num
          _ ≤ 2 ^ (block_best_blen input.length).2 :=
            Nat.pow_le_pow_right (by norm_num) hclo
      rw [encSegs]
      by_cases hrem : OP_MIN_PARTIAL_CHUNK ≤
          (input.drop (min input.length (block_best_blen input.length).1)).length
      · rw [if_pos hrem]
        exact ih _ (by rw [hdrop]; omega) (by rw [hdrop]; exact hdvd2)
      · rw [if_neg hrem]
        rw [hdrop] at hrem
        have hz2 : input.length - (block_best_blen input.length).1 = 0 := by
          rcases hdvd2 with ⟨k, hk⟩
          rcases Nat.eq_zero_or_pos k with h0 | h1
          · omega
          · rw [OP_MIN_PARTIAL_CHUNK] at hrem; omega
        exact List.length_eq_zero.mp (by rw [hdrop]; exact hz2)

end Iobuf

namespace Iobuf

/-- The head node of the partial-body write pipeline: an OUTPUT node carrying
the block filter, as produced by pushing the block filter onto a temp output
(no := 1, subno := 1, counters zero). -/
def bnode (d : BufD) (e : ExtD) (ctx : BlockWCtx) : Node BlockWCtx where
  use := .output
  d := d
  flt := some (block_filter_w, ctx)
  fltOwner := false
  filterEof := false
  error := 0
  eD := e
  nbytes := 0
  ntotal := 0
  nlimit := 0
  nofast := false
  no := 1
  subno := 1
  realFname := none

/-- The 64 KiB malloc junk of a fresh default-size buffer. -/
def d0buf : List Nat := List.replicate iobuf_buffer_size 0

theorem push_block_on_temp_eval :
    iobuf_set_partial_body_length_mode_out iobuf_temp =
      (0, ⟨bnode ⟨d0buf, iobuf_buffer_size, 0, 0⟩ ⟨false, 0, 0, false⟩
            ⟨[], []⟩,
          [iobuf_alloc .outputTemp iobuf_buffer_size]⟩) := rfl

end Iobuf
